import Mathlib

/-!
# Shallow embedding of the `composed-di` dependency-injection container

This file embeds the core of the repository (`src/serviceKey.ts`,
`src/serviceScope.ts`, `src/serviceFactory.ts`, `src/serviceModule.ts`)
into Lean and proves the specified properties of module composition,
validation, resolution and disposal.

Modelling choices:
* A JavaScript `Symbol` is a `Nat`; `ServiceKey` / `ServiceScope`
  constructors allocate a fresh symbol per object, so object identity
  (`===`) coincides with symbol equality, which is how we compare keys
  and scopes.
* The mutable closure variable `instance` of a singleton factory, and the
  number of times a user-supplied initializer has been invoked, are
  threaded explicitly as a state `MState` indexed by the factory's
  position in the module's factory list.
* Asynchronous resolution is modelled sequentially (the spec's claims are
  about sequential, non-overlapping calls); `Promise` rejection is an
  explicit error channel `RError` that carries the state at the moment of
  the failure, since closure mutations survive a rejected promise.
* `get` recurses through the dependency graph, which may be cyclic (only
  direct self-reference is validated away), so it takes explicit fuel;
  `RError.fuelOut` marks fuel exhaustion and never corresponds to a
  behaviour of the JavaScript code.
* A user `dispose(instance)` callback has no effect visible to the model
  other than having been invoked, so disposal returns a log of
  `(factory index, instance)` pairs on which user teardown ran.
-/

/-- From `serviceKey.ts`: a key has a human-readable `name` and a unique `symbol`. -/
structure ServiceKey where
  name : String
  symbol : Nat
deriving DecidableEq

/-- From `serviceScope.ts`: a scope has a `name` and a unique `symbol`. -/
structure ServiceScope where
  name : String
  symbol : Nat
deriving DecidableEq

/-- Which of the two `ServiceFactory` static constructors built a factory:
`ServiceFactory.singleton` (caching) or `ServiceFactory.oneShot` (fresh value
per request). -/
inductive FactoryKind where
  | singleton
  | oneShot
deriving DecidableEq

/-- From `serviceFactory.ts`: a factory provides one key, declares ordered
dependencies, an optional scope, and a user initializer. `kind` selects the
lifetime behaviour of its `initialize`/`dispose` members; `userInit` is the
user-supplied initializer (deterministic in the resolved dependency values,
with an explicit error channel for a thrown/rejected initializer). -/
structure ServiceFactory (V E : Type) where
  provides : ServiceKey
  dependsOn : List ServiceKey
  scope : Option ServiceScope
  kind : FactoryKind
  userInit : List V → Except E V

/-- Models `ServiceFactory.singleton({scope, provides, dependsOn, initialize, dispose})`. -/
def ServiceFactory.mkSingleton {V E : Type} (scope : Option ServiceScope)
    (provides : ServiceKey) (dependsOn : List ServiceKey)
    (userInit : List V → Except E V) : ServiceFactory V E :=
  ⟨provides, dependsOn, scope, FactoryKind.singleton, userInit⟩

/-- Models `ServiceFactory.oneShot({provides, dependsOn, initialize})`: no scope, no
dispose member. -/
def ServiceFactory.mkOneShot {V E : Type} (provides : ServiceKey)
    (dependsOn : List ServiceKey) (userInit : List V → Except E V) :
    ServiceFactory V E :=
  ⟨provides, dependsOn, none, FactoryKind.oneShot, userInit⟩

/-- The mutable state of a module's factories: per factory index, the cached
singleton instance (the closure variable `instance` in
`ServiceFactory.singleton`) and how many times the user initializer has run. -/
structure MState (V : Type) where
  caches : Nat → Option V
  initCalls : Nat → Nat

/-- The state of a freshly composed module: nothing cached, no initializer run. -/
def MState.empty {V : Type} : MState V :=
  ⟨fun _ => none, fun _ => 0⟩

/-- Overwrite the cached instance of the factory at index `i`. -/
def MState.setCache {V : Type} (st : MState V) (i : Nat) (o : Option V) : MState V :=
  ⟨fun j => if j = i then o else st.caches j, st.initCalls⟩

/-- Record one invocation of the user initializer of the factory at index `i`. -/
def MState.bump {V : Type} (st : MState V) (i : Nat) : MState V :=
  ⟨st.caches, fun j => if j = i then st.initCalls j + 1 else st.initCalls j⟩

/-- An error surfaced by resolution: an `Error` thrown by the container itself
(with its message), a user initializer failure propagated as-is, or fuel
exhaustion (an artifact of the embedding, not of the code). -/
inductive RError (E : Type) where
  | thrown (msg : String)
  | user (e : E)
  | fuelOut
deriving DecidableEq

/-- Outcome of `get`: a value or an error, together with the final state
(closure mutations survive a rejected promise). -/
inductive RResult (V E : Type) where
  | ok (v : V) (st : MState V)
  | err (e : RError E) (st : MState V)

/-- Outcome of resolving a dependency list. -/
inductive DepsResult (V E : Type) where
  | ok (vs : List V) (st : MState V)
  | err (e : RError E) (st : MState V)

def RResult.state {V E : Type} : RResult V E → MState V
  | .ok _ st => st
  | .err _ st => st

def DepsResult.state {V E : Type} : DepsResult V E → MState V
  | .ok _ st => st
  | .err _ st => st

/-- Is this error the fuel-exhaustion marker (embedding artifact)? -/
def RError.isFuelErr {E : Type} : RError E → Bool
  | .fuelOut => true
  | _ => false

/-- Does the result mark fuel exhaustion (embedding artifact)? -/
def RResult.isFuelOut {V E : Type} : RResult V E → Bool
  | .ok _ _ => false
  | .err e _ => e.isFuelErr

def DepsResult.isFuelOut {V E : Type} : DepsResult V E → Bool
  | .ok _ _ => false
  | .err e _ => e.isFuelErr

/-- The factory's `initialize` member, as produced by the static constructors in
`serviceFactory.ts`, called with the resolved dependency values. `i` is the
factory's index in the module, addressing its closure state.
* one-shot: forward to the user initializer every time;
* singleton: return the cached instance if present, otherwise run the user
  initializer and cache the result. -/
def callFactory {V E : Type} (f : ServiceFactory V E) (i : Nat) (st : MState V)
    (deps : List V) : RResult V E :=
  match f.kind with
  | .oneShot =>
    match f.userInit deps with
    | .error e => .err (.user e) (st.bump i)
    | .ok v => .ok v (st.bump i)
  | .singleton =>
    match st.caches i with
    | some v => .ok v st
    | none =>
      match f.userInit deps with
      | .error e => .err (.user e) (st.bump i)
      | .ok v => .ok v ((st.bump i).setCache i (some v))

/-- The predicate `isSuitable` from `serviceModule.ts`: provides-symbol equality. -/
def isSuitable {V E : Type} (k : ServiceKey) (f : ServiceFactory V E) : Bool :=
  decide (f.provides.symbol = k.symbol)

/-- Models `this.factories.find(isSuitable(key, .))`, also returning the index of the
found factory (used to address its closure state). -/
def findSuitable {V E : Type} (k : ServiceKey) :
    List (ServiceFactory V E) → Option (Nat × ServiceFactory V E)
  | [] => none
  | f :: fs =>
    if isSuitable k f then some (0, f)
    else (findSuitable k fs).map (fun p => (p.1 + 1, p.2))

/-- Resolve a list of dependency keys left to right with the resolver `res`,
collecting the values positionally; the first error aborts and propagates. -/
def resolveDeps {V E : Type} (res : MState V → ServiceKey → RResult V E) :
    MState V → List ServiceKey → DepsResult V E
  | st, [] => .ok [] st
  | st, k :: ks =>
    match res st k with
    | .err e st' => .err e st'
    | .ok v st' =>
      match resolveDeps res st' ks with
      | .err e st'' => .err e st''
      | .ok vs st'' => .ok (v :: vs) st''

/-- Models `ServiceModule.get(key)`: find the first suitable factory (error naming the
key if none), resolve its dependencies in declared order, then invoke its
`initialize` with the resolved values positionally. `fuel` bounds recursion
depth (the JavaScript code recurses without a bound). -/
def ServiceModule.get {V E : Type} (fs : List (ServiceFactory V E)) :
    Nat → MState V → ServiceKey → RResult V E
  | 0 => fun st _ => .err .fuelOut st
  | fuel + 1 => fun st k =>
    match findSuitable k fs with
    | none => .err (.thrown ("Could not find a suitable factory for " ++ k.name)) st
    | some (i, f) =>
      match resolveDeps (ServiceModule.get fs fuel) st f.dependsOn with
      | .err e st' => .err e st'
      | .ok vs st' => callFactory f i st' vs

/-- The `dispose` member of a factory at index `i` (`factory.dispose?.()`):
a one-shot factory has none (skipped); a singleton's dispose invokes the user
teardown on the cached instance, if any, and clears the cache. Returns the new
state and the teardown invocations `(index, instance)` performed. -/
def disposeFactory {V E : Type} (f : ServiceFactory V E) (i : Nat) (st : MState V) :
    MState V × List (Nat × V) :=
  match f.kind with
  | .oneShot => (st, [])
  | .singleton =>
    match st.caches i with
    | none => (st, [])
    | some v => (st.setCache i none, [(i, v)])

/-- The filter `f.scope === scope` used by `ServiceModule.dispose`: with no
scope argument every factory is selected; with a scope, only factories whose
scope is that very scope object. -/
def scopeMatches {V E : Type} (s : Option ServiceScope) (f : ServiceFactory V E) : Bool :=
  match s with
  | none => true
  | some sc =>
    match f.scope with
    | none => false
    | some fsc => decide (fsc.symbol = sc.symbol)

/-- Walk the factory list from index `n`, disposing every selected factory in
list order, accumulating the teardown log. -/
def disposeFrom {V E : Type} (s : Option ServiceScope) :
    List (ServiceFactory V E) → Nat → MState V → MState V × List (Nat × V)
  | [], _, st => (st, [])
  | f :: fs, n, st =>
    if scopeMatches s f then
      match disposeFactory f n st with
      | (st', log) =>
        match disposeFrom s fs (n + 1) st' with
        | (st'', log') => (st'', log ++ log')
    else
      disposeFrom s fs (n + 1) st

/-- Models `ServiceModule.dispose(scope?)`. -/
def ServiceModule.dispose {V E : Type} (fs : List (ServiceFactory V E))
    (s : Option ServiceScope) (st : MState V) : MState V × List (Nat × V) :=
  disposeFrom s fs 0 st

/-- Models `checkRecursiveDependencies`: reject a factory listing its own provided key
among its dependencies. -/
def checkRecursiveDependencies {V E : Type} (f : ServiceFactory V E) :
    Except String Unit :=
  if f.dependsOn.any (fun d => decide (d.symbol = f.provides.symbol)) then
    .error ("Recursive dependency detected on: " ++ f.provides.name)
  else
    .ok ()

/-- Models `isRegistered`: some factory in the list provides the key (by symbol). -/
def isRegistered {V E : Type} (k : ServiceKey) (fs : List (ServiceFactory V E)) : Bool :=
  fs.any (fun f => decide (f.provides.symbol = k.symbol))

/-- The dependencies of `f` provided by no factory in `fs`. -/
def missingDependencies {V E : Type} (f : ServiceFactory V E)
    (fs : List (ServiceFactory V E)) : List ServiceKey :=
  f.dependsOn.filter (fun d => !isRegistered d fs)

/-- The message of the error thrown by `checkMissingDependencies`: names the
factory's provided service and joins one ` -> name` line per missing
dependency with newlines. -/
def missingMessage {V E : Type} (f : ServiceFactory V E)
    (fs : List (ServiceFactory V E)) : String :=
  f.provides.name ++ " will fail because it depends on:\n " ++
    String.intercalate "\n" ((missingDependencies f fs).map (fun d => " -> " ++ d.name))

/-- Models `checkMissingDependencies`: throw (with the enumerating message) unless
every dependency of `f` is provided by some factory of the module. -/
def checkMissingDependencies {V E : Type} (f : ServiceFactory V E)
    (fs : List (ServiceFactory V E)) : Except String Unit :=
  if (missingDependencies f fs).isEmpty then .ok ()
  else .error (missingMessage f fs)

/-- The `ServiceModule` constructor's `factories.forEach(...)`: validate each
factory in order against the full list, first failure aborts. -/
def validateAll {V E : Type} (all : List (ServiceFactory V E)) :
    List (ServiceFactory V E) → Except String Unit
  | [] => .ok ()
  | f :: rest =>
    match checkRecursiveDependencies f with
    | .error e => .error e
    | .ok _ =>
      match checkMissingDependencies f all with
      | .error e => .error e
      | .ok _ => validateAll all rest

/-- From `serviceModule.ts`: a validated, immutable collection of factories. -/
structure ServiceModule (V E : Type) where
  factories : List (ServiceFactory V E)

/-- The private `ServiceModule` constructor: run validation over the factory
list; return the module only if no check throws. -/
def mkModule {V E : Type} (fs : List (ServiceFactory V E)) :
    Except String (ServiceModule V E) :=
  match validateAll fs fs with
  | .error e => .error e
  | .ok _ => .ok ⟨fs⟩

/-- An entry of `ServiceModule.from`: a module or a bare factory. -/
inductive ModuleEntry (V E : Type) where
  | mod (m : ServiceModule V E)
  | fac (f : ServiceFactory V E)

/-- Models `entries.flatMap(e => e instanceof ServiceModule ? e.factories : [e])`. -/
def flattenEntries {V E : Type} (es : List (ModuleEntry V E)) :
    List (ServiceFactory V E) :=
  match es with
  | [] => []
  | .mod m :: rest => m.factories ++ flattenEntries rest
  | .fac f :: rest => f :: flattenEntries rest

/-- One `byKey.set(f.provides.symbol, f)` step on a JavaScript `Map` kept as an
insertion-ordered association list: overwrite in place if the symbol is
present, else append. -/
def mapSet {V E : Type} (acc : List (ServiceFactory V E)) (f : ServiceFactory V E) :
    List (ServiceFactory V E) :=
  if acc.any (fun g => decide (g.provides.symbol = f.provides.symbol)) then
    acc.map (fun g => if g.provides.symbol = f.provides.symbol then f else g)
  else
    acc ++ [f]

/-- The dedupe loop of `ServiceModule.from`: later factories overwrite earlier
ones per provided symbol; `Array.from(byKey.values())` is the resulting list. -/
def dedupeByKey {V E : Type} (fs : List (ServiceFactory V E)) :
    List (ServiceFactory V E) :=
  fs.foldl mapSet []

/-- Models `ServiceModule.from(entries)`: flatten, dedupe last-wins, then construct
(and validate) the module. -/
def ServiceModule.fromEntries {V E : Type} (es : List (ModuleEntry V E)) :
    Except String (ServiceModule V E) :=
  mkModule (dedupeByKey (flattenEntries es))

/-- The last element of a list satisfying `p`, if any: for a symbol `s`, the
last factory in a sequence providing `s` is the one a JavaScript `Map` keyed by
symbol retains. -/
def lastMatch {A : Type} (p : A → Bool) : List A → Option A
  | [] => none
  | a :: l =>
    match lastMatch p l with
    | some b => some b
    | none => if p a then some a else none

/-- The function `rank` is a topological ranking of the module's dependency graph: every
dependency of a factory ranks strictly below the factory's provided key. -/
def DepsRanked {V E : Type} (fs : List (ServiceFactory V E)) (rank : Nat → Nat) : Prop :=
  ∀ f ∈ fs, ∀ d ∈ f.dependsOn, rank d.symbol < rank f.provides.symbol

/-- Does a factory list itself as a dependency (the condition rejected by
`checkRecursiveDependencies`)? -/
def selfDependent {V E : Type} (f : ServiceFactory V E) : Prop :=
  f.dependsOn.any (fun d => decide (d.symbol = f.provides.symbol)) = true

instance {V E : Type} (f : ServiceFactory V E) : Decidable (selfDependent f) :=
  inferInstanceAs (Decidable (_ = true))

/-- The relation `ResolvesEach res st ks vs st'` holds when the resolver `res`, started in
state `st`, resolves the keys `ks` one by one in their declared order, the
`j`-th key producing the `j`-th value of `vs` (positional correspondence), and
every resolution completes, ending in state `st'`. -/
inductive ResolvesEach {V E : Type} (res : MState V → ServiceKey → RResult V E) :
    MState V → List ServiceKey → List V → MState V → Prop where
  | nil (st : MState V) : ResolvesEach res st [] [] st
  | cons (st : MState V) (k : ServiceKey) (v : V) (st' : MState V)
      (ks : List ServiceKey) (vs : List V) (st'' : MState V) :
      res st k = RResult.ok v st' →
      ResolvesEach res st' ks vs st'' →
      ResolvesEach res st (k :: ks) (v :: vs) st''

/-! ## Concrete instances

Small concrete modules (values are `Nat`, user errors are `String`) used to
evaluate the verified properties on executable inputs. -/

/-- The key `new ServiceKey('Config')` with allocated symbol 1. -/
def kCfg : ServiceKey := ⟨"Config", 1⟩

/-- The key `new ServiceKey('Logger')` with allocated symbol 2. -/
def kLog : ServiceKey := ⟨"Logger", 2⟩

/-- The key `new ServiceKey('App')` with allocated symbol 3. -/
def kApp : ServiceKey := ⟨"App", 3⟩

/-- A key no factory of the demo modules provides. -/
def kNone : ServiceKey := ⟨"Nope", 99⟩

def wCfg : ServiceFactory Nat String :=
  ServiceFactory.mkSingleton none kCfg [] (fun _ => .ok 10)

def wLog : ServiceFactory Nat String :=
  ServiceFactory.mkOneShot kLog [] (fun _ => .ok 20)

def wApp : ServiceFactory Nat String :=
  ServiceFactory.mkSingleton none kApp [kCfg, kLog] (fun ds => .ok (ds.sum + 100))

/-- The factory list of `ServiceModule.from([wCfg, wLog, wApp])`. -/
def fsW : List (ServiceFactory Nat String) := [wCfg, wLog, wApp]

/-- The state after a first successful `get(App)` on `fsW`. -/
def stW1 : MState Nat := (ServiceModule.get fsW 3 MState.empty kApp).state

/-- The state after a second `get(App)` on `fsW`. -/
def stW2 : MState Nat := (ServiceModule.get fsW 3 stW1 kApp).state

/-- A topological rank for `fsW`'s dependency graph. -/
def rankW : Nat → Nat := fun s => if s = 3 then 1 else 0

/-- Two factories providing the same `Config` key (same symbol): base then
override. -/
def w2A : ServiceFactory Nat String :=
  ServiceFactory.mkSingleton none kCfg [] (fun _ => .ok 1)

def w2B : ServiceFactory Nat String :=
  ServiceFactory.mkOneShot kCfg [] (fun _ => .ok 2)

def esW2 : List (ModuleEntry Nat String) := [.fac w2A, .fac w2B]

/-- Factory `alpha` depends on an unregistered `db` key. -/
def c3A : ServiceFactory Nat String :=
  ServiceFactory.mkOneShot ⟨"alpha", 21⟩ [⟨"db", 28⟩] (fun _ => .ok 0)

/-- Factory `beta` depends on an unregistered `cache` key. -/
def c3B : ServiceFactory Nat String :=
  ServiceFactory.mkOneShot ⟨"beta", 22⟩ [⟨"cache", 29⟩] (fun _ => .ok 0)

def fsC3 : List (ServiceFactory Nat String) := [c3A, c3B]

/-- Factory `gamma` declares itself as a dependency. -/
def c4A : ServiceFactory Nat String :=
  ServiceFactory.mkOneShot ⟨"gamma", 31⟩ [⟨"gamma", 31⟩] (fun _ => .ok 0)

/-- Factory `delta` declares itself as a dependency. -/
def c4B : ServiceFactory Nat String :=
  ServiceFactory.mkOneShot ⟨"delta", 32⟩ [⟨"delta", 32⟩] (fun _ => .ok 0)

def fsC4 : List (ServiceFactory Nat String) := [c4A, c4B]

/-- The scope `new ServiceScope('request')`. -/
def scS1 : ServiceScope := ⟨"request", 1⟩

/-- The scope `new ServiceScope('session')`. -/
def scS2 : ServiceScope := ⟨"session", 2⟩

def u1 : ServiceFactory Nat String :=
  ServiceFactory.mkSingleton (some scS1) ⟨"A", 11⟩ [] (fun _ => .ok 1)

def u2 : ServiceFactory Nat String :=
  ServiceFactory.mkSingleton (some scS2) ⟨"B", 12⟩ [] (fun _ => .ok 2)

def u3 : ServiceFactory Nat String :=
  ServiceFactory.mkOneShot ⟨"C", 13⟩ [] (fun _ => .ok 3)

def fsW6 : List (ServiceFactory Nat String) := [u1, u2, u3]

/-- A state of `fsW6` where both singletons hold cached instances. -/
def stW6 : MState Nat :=
  ⟨fun j => if j = 0 then some 1 else if j = 1 then some 2 else none, fun _ => 1⟩

def b1 : ServiceFactory Nat String :=
  ServiceFactory.mkSingleton none ⟨"Cfg", 51⟩ [] (fun _ => .ok 7)

/-- A one-shot factory whose user initializer always fails. -/
def b2 : ServiceFactory Nat String :=
  ServiceFactory.mkOneShot ⟨"Boom", 52⟩ [] (fun _ => .error "boom")

def b3 : ServiceFactory Nat String :=
  ServiceFactory.mkOneShot ⟨"Top", 53⟩ [⟨"Cfg", 51⟩, ⟨"Boom", 52⟩]
    (fun _ => .ok 0)

def fsW8 : List (ServiceFactory Nat String) := [b1, b2, b3]

def kTop : ServiceKey := ⟨"Top", 53⟩

def kCfg8 : ServiceKey := ⟨"Cfg", 51⟩

/-- The state left behind by the failing `get(Top)` on `fsW8`. -/
def stW8 : MState Nat := (ServiceModule.get fsW8 3 MState.empty kTop).state

/-- The state after the follow-up `get(Cfg)` on `fsW8`. -/
def stW8b : MState Nat := (ServiceModule.get fsW8 1 stW8 kCfg8).state

/-- A factory providing `svc` that depends on itself (invalid on its own). -/
def w10Bad : ServiceFactory Nat String :=
  ServiceFactory.mkOneShot ⟨"svc", 41⟩ [⟨"svc", 41⟩] (fun _ => .ok 0)

/-- A later factory providing the same `svc` symbol, overriding `w10Bad`. -/
def w10Good : ServiceFactory Nat String :=
  ServiceFactory.mkSingleton none ⟨"svc", 41⟩ [] (fun _ => .ok 5)

def esW10 : List (ModuleEntry Nat String) := [.fac w10Bad, .fac w10Good]


/-! ## Properties of `findSuitable` -/

theorem findSuitable_eq_some {V E : Type} {k : ServiceKey} :
    ∀ {fs : List (ServiceFactory V E)} {i : Nat} {f : ServiceFactory V E},
    findSuitable k fs = some (i, f) →
    f ∈ fs ∧ f.provides.symbol = k.symbol ∧ fs.get? i = some f := by
  intro fs
  induction fs with
  | nil => intro i f h; simp [findSuitable] at h
  | cons f0 rest ih =>
    intro i f h
    by_cases hs : isSuitable k f0
    · simp [findSuitable, hs] at h
      obtain ⟨hi, hf⟩ := h
      subst hi; subst hf
      refine ⟨List.mem_cons_self _ _, ?_, rfl⟩
      simpa [isSuitable] using hs
    · rw [findSuitable, if_neg hs] at h
      cases hm : findSuitable k rest with
      | none => rw [hm] at h; simp at h
      | some p =>
        rw [hm] at h
        simp only [Option.map_some', Option.some.injEq] at h
        obtain ⟨i1, f1⟩ := p
        obtain ⟨hmem, hsym, hget⟩ := ih hm
        have hi : i = i1 + 1 := by
          have := congrArg Prod.fst h; simpa using this.symm
        have hf : f1 = f := by
          have := congrArg Prod.snd h; simpa using this
        subst hi; subst hf
        exact ⟨List.mem_cons_of_mem _ hmem, hsym, by simpa using hget⟩

theorem findSuitable_eq_none {V E : Type} {k : ServiceKey}
    {fs : List (ServiceFactory V E)} :
    findSuitable k fs = none ↔ isRegistered k fs = false := by
  induction fs with
  | nil => simp [findSuitable, isRegistered]
  | cons f0 rest ih =>
    by_cases hs : isSuitable k f0
    · simp only [findSuitable, if_pos hs, isRegistered, List.any_cons]
      constructor
      · intro h; cases h
      · intro h
        have hd : decide (f0.provides.symbol = k.symbol) = true := by
          simpa [isSuitable] using hs
        rw [hd] at h; simp at h
    · simp only [findSuitable, if_neg hs, isRegistered, List.any_cons,
        Option.map_eq_none']
      have h0 : decide (f0.provides.symbol = k.symbol) = false := by
        simpa [isSuitable] using hs
      rw [h0]
      simpa [isRegistered] using ih

/-! ## State evolution lemmas: caches only ever go from empty to filled, and a
filled cache is never overwritten; initializer counts at a cached singleton
index never move. -/

theorem callFactory_caches_mono {V E : Type} {f : ServiceFactory V E} {i : Nat}
    {st : MState V} {deps : List V} {j : Nat} {v : V} (h : st.caches j = some v) :
    (callFactory f i st deps).state.caches j = some v := by
  unfold callFactory
  split
  · split
    · simpa [RResult.state, MState.bump] using h
    · simpa [RResult.state, MState.bump] using h
  · split
    · simpa [RResult.state] using h
    · rename_i hc
      split
      · simpa [RResult.state, MState.bump] using h
      · by_cases hj : j = i
        · subst hj; rw [h] at hc; cases hc
        · simpa [RResult.state, MState.setCache, MState.bump, hj] using h

theorem callFactory_initCalls_other {V E : Type} {f : ServiceFactory V E} {i : Nat}
    {st : MState V} {deps : List V} {j : Nat} (hj : j ≠ i) :
    (callFactory f i st deps).state.initCalls j = st.initCalls j := by
  unfold callFactory
  split
  · split <;> simp [RResult.state, MState.bump, hj]
  · split
    · simp [RResult.state]
    · split <;> simp [RResult.state, MState.setCache, MState.bump, hj]

theorem callFactory_cached_hit {V E : Type} {f : ServiceFactory V E} {i : Nat}
    {st : MState V} {deps : List V} {v : V} (hk : f.kind = FactoryKind.singleton)
    (hc : st.caches i = some v) :
    callFactory f i st deps = RResult.ok v st := by
  unfold callFactory
  rw [hk, hc]

theorem callFactory_singleton_miss {V E : Type} {f : ServiceFactory V E} {i : Nat}
    {st : MState V} {deps : List V} (hk : f.kind = FactoryKind.singleton)
    (hc : st.caches i = none) :
    callFactory f i st deps =
      match f.userInit deps with
      | .error e => .err (.user e) (st.bump i)
      | .ok v => .ok v ((st.bump i).setCache i (some v)) := by
  unfold callFactory
  rw [hk, hc]

theorem callFactory_oneShot_eq {V E : Type} {f : ServiceFactory V E} {i : Nat}
    {st : MState V} {deps : List V} (hk : f.kind = FactoryKind.oneShot) :
    callFactory f i st deps =
      match f.userInit deps with
      | .error e => .err (.user e) (st.bump i)
      | .ok v => .ok v (st.bump i) := by
  unfold callFactory
  rw [hk]

theorem resolveDeps_caches_mono {V E : Type}
    {res : MState V → ServiceKey → RResult V E}
    (hres : ∀ st k j v, st.caches j = some v → (res st k).state.caches j = some v) :
    ∀ (ks : List ServiceKey) (st : MState V) (j : Nat) (v : V),
      st.caches j = some v → (resolveDeps res st ks).state.caches j = some v := by
  intro ks
  induction ks with
  | nil => intro st j v h; simpa [resolveDeps, DepsResult.state] using h
  | cons k ks ih =>
    intro st j v h
    simp only [resolveDeps]
    split
    · rename_i e st' hg
      have hm := hres st k j v h
      rw [hg] at hm
      simpa [DepsResult.state, RResult.state] using hm
    · rename_i w st' hg
      have hm := hres st k j v h
      rw [hg] at hm
      simp only [RResult.state] at hm
      have hr := ih st' j v hm
      split
      · rename_i e st'' hq
        rw [hq] at hr
        simpa [DepsResult.state] using hr
      · rename_i vs st'' hq
        rw [hq] at hr
        simpa [DepsResult.state] using hr

theorem get_caches_mono {V E : Type} {fs : List (ServiceFactory V E)} :
    ∀ (fuel : Nat) (k : ServiceKey) (st : MState V) (j : Nat) (v : V),
      st.caches j = some v →
      (ServiceModule.get fs fuel st k).state.caches j = some v := by
  intro fuel
  induction fuel with
  | zero => intro k st j v h; simpa [ServiceModule.get, RResult.state] using h
  | succ fuel ih =>
    intro k st j v h
    simp only [ServiceModule.get]
    have hres : ∀ st k j v, st.caches j = some v →
        (ServiceModule.get fs fuel st k).state.caches j = some v :=
      fun st k j v h => ih k st j v h
    split
    · simpa [RResult.state] using h
    · rename_i i f hf
      have hd := resolveDeps_caches_mono hres f.dependsOn st j v h
      split
      · rename_i e st' hr
        rw [hr] at hd
        simpa [DepsResult.state, RResult.state] using hd
      · rename_i vs st' hr
        rw [hr] at hd
        simp only [DepsResult.state] at hd
        exact callFactory_caches_mono hd

theorem resolveDeps_cached_pres {V E : Type}
    {res : MState V → ServiceKey → RResult V E} {i : Nat} {v : V}
    (hres : ∀ st k, st.caches i = some v →
      (res st k).state.initCalls i = st.initCalls i ∧
      (res st k).state.caches i = some v) :
    ∀ (ks : List ServiceKey) (st : MState V), st.caches i = some v →
      (resolveDeps res st ks).state.initCalls i = st.initCalls i ∧
      (resolveDeps res st ks).state.caches i = some v := by
  intro ks
  induction ks with
  | nil => intro st h; simp [resolveDeps, DepsResult.state, h]
  | cons k ks ih =>
    intro st h
    simp only [resolveDeps]
    split
    · rename_i e st' hg
      have hm := hres st k h
      rw [hg] at hm
      simpa [DepsResult.state, RResult.state] using hm
    · rename_i w st' hg
      have hm := hres st k h
      rw [hg] at hm
      simp only [RResult.state] at hm
      have hr := ih st' hm.2
      split
      · rename_i e st'' hq
        rw [hq] at hr
        simp only [DepsResult.state] at hr ⊢
        exact ⟨hr.1.trans hm.1, hr.2⟩
      · rename_i vs st'' hq
        rw [hq] at hr
        simp only [DepsResult.state] at hr ⊢
        exact ⟨hr.1.trans hm.1, hr.2⟩

theorem get_cached_pres {V E : Type} {fs : List (ServiceFactory V E)} {i : Nat}
    {f : ServiceFactory V E} (hi : fs.get? i = some f)
    (hk : f.kind = FactoryKind.singleton) {v : V} :
    ∀ (fuel : Nat) (k : ServiceKey) (st : MState V), st.caches i = some v →
      (ServiceModule.get fs fuel st k).state.initCalls i = st.initCalls i ∧
      (ServiceModule.get fs fuel st k).state.caches i = some v := by
  intro fuel
  induction fuel with
  | zero => intro k st h; simp [ServiceModule.get, RResult.state, h]
  | succ fuel ih =>
    intro k st h
    simp only [ServiceModule.get]
    have hres : ∀ st k, st.caches i = some v →
        (ServiceModule.get fs fuel st k).state.initCalls i = st.initCalls i ∧
        (ServiceModule.get fs fuel st k).state.caches i = some v :=
      fun st k h => ih k st h
    split
    · simp [RResult.state, h]
    · rename_i j g hf
      have hd := resolveDeps_cached_pres hres g.dependsOn st h
      split
      · rename_i e st' hr
        rw [hr] at hd
        simpa [DepsResult.state, RResult.state] using hd
      · rename_i vs st' hr
        rw [hr] at hd
        simp only [DepsResult.state] at hd
        by_cases hj : j = i
        · subst hj
          have hgf : g = f := by
            have := (findSuitable_eq_some hf).2.2
            rw [hi] at this
            exact (Option.some.injEq _ _ ▸ this).symm
          subst hgf
          rw [callFactory_cached_hit hk hd.2]
          exact hd
        · constructor
          · rw [callFactory_initCalls_other (Ne.symm hj)]
            exact hd.1
          · exact callFactory_caches_mono hd.2

/-- Unfolding `get` at positive fuel once the factory lookup is known. -/
theorem get_found_eq {V E : Type} {fs : List (ServiceFactory V E)}
    {k : ServiceKey} {i : Nat} {f : ServiceFactory V E}
    (hf : findSuitable k fs = some (i, f)) (fuel : Nat) (st : MState V) :
    ServiceModule.get fs (fuel + 1) st k =
      match resolveDeps (ServiceModule.get fs fuel) st f.dependsOn with
      | .err e st' => .err e st'
      | .ok vs st' => callFactory f i st' vs := by
  simp only [ServiceModule.get]
  rw [hf]

/-- Unfolding `get` at positive fuel when no factory provides the key. -/
theorem get_notfound_eq {V E : Type} {fs : List (ServiceFactory V E)}
    {k : ServiceKey} (hf : findSuitable k fs = none) (fuel : Nat) (st : MState V) :
    ServiceModule.get fs (fuel + 1) st k =
      RResult.err (RError.thrown ("Could not find a suitable factory for " ++ k.name)) st := by
  simp only [ServiceModule.get]
  rw [hf]

/-- A successful `get` of a key served by a singleton factory leaves the
produced value in that factory's cache. -/
theorem get_singleton_ok_caches {V E : Type} {fs : List (ServiceFactory V E)}
    {k : ServiceKey} {i : Nat} {f : ServiceFactory V E}
    (hf : findSuitable k fs = some (i, f)) (hk : f.kind = FactoryKind.singleton)
    {fuel : Nat} {st st1 : MState V} {v : V}
    (h : ServiceModule.get fs fuel st k = RResult.ok v st1) :
    st1.caches i = some v := by
  cases fuel with
  | zero => simp [ServiceModule.get] at h
  | succ fuel =>
    rw [get_found_eq hf] at h
    split at h
    · cases h
    · rename_i vs st' hr
      cases hc : st'.caches i with
      | some w =>
        rw [callFactory_cached_hit hk hc] at h
        cases h
        exact hc
      | none =>
        rw [callFactory_singleton_miss hk hc] at h
        split at h
        · cases h
        · rename_i w hu
          cases h
          simp [MState.setCache, MState.bump]

/-- A `get` of a key served by a singleton factory whose cache is filled
returns the cached instance (if it returns at all) and never re-invokes that
factory's user initializer. -/
theorem get_singleton_cached {V E : Type} {fs : List (ServiceFactory V E)}
    {k : ServiceKey} {i : Nat} {f : ServiceFactory V E}
    (hf : findSuitable k fs = some (i, f)) (hk : f.kind = FactoryKind.singleton)
    {fuel : Nat} {st st2 : MState V} {v w : V} (hc : st.caches i = some v)
    (h : ServiceModule.get fs fuel st k = RResult.ok w st2) :
    w = v ∧ st2.initCalls i = st.initCalls i := by
  cases fuel with
  | zero => simp [ServiceModule.get] at h
  | succ fuel =>
    have hi : fs.get? i = some f := (findSuitable_eq_some hf).2.2
    rw [get_found_eq hf] at h
    split at h
    · cases h
    · rename_i vs st' hr
      have hres : ∀ st k, st.caches i = some v →
          (ServiceModule.get fs fuel st k).state.initCalls i = st.initCalls i ∧
          (ServiceModule.get fs fuel st k).state.caches i = some v :=
        fun st k hcc => get_cached_pres hi hk fuel k st hcc
      have hd := resolveDeps_cached_pres hres f.dependsOn st hc
      rw [hr] at hd
      simp only [DepsResult.state] at hd
      rw [callFactory_cached_hit hk hd.2] at h
      cases h
      exact ⟨rfl, hd.1⟩

/-! ## Error origination: a user error surfaced by `get` is exactly an error
value produced by some factory's user initializer. -/

theorem callFactory_err_user {V E : Type} {f : ServiceFactory V E} {i : Nat}
    {st st' : MState V} {deps : List V} {e : E}
    (h : callFactory f i st deps = RResult.err (RError.user e) st') :
    f.userInit deps = Except.error e := by
  unfold callFactory at h
  split at h
  · split at h
    · rename_i hu; cases h; exact hu
    · cases h
  · split at h
    · cases h
    · split at h
      · rename_i hu; cases h; exact hu
      · cases h

theorem resolveDeps_err_user {V E : Type}
    {res : MState V → ServiceKey → RResult V E} {P : E → Prop}
    (hres : ∀ st k st' e, res st k = RResult.err (RError.user e) st' → P e) :
    ∀ (ks : List ServiceKey) (st st' : MState V) (e : E),
      resolveDeps res st ks = DepsResult.err (RError.user e) st' → P e := by
  intro ks
  induction ks with
  | nil => intro st st' e h; simp [resolveDeps] at h
  | cons k ks ih =>
    intro st st' e h
    simp only [resolveDeps] at h
    split at h
    · rename_i e0 st0 hg
      cases h
      exact hres st k st' e hg
    · rename_i w st0 hg
      split at h
      · rename_i e1 st1 hq
        cases h
        exact ih st0 st' e hq
      · cases h

theorem get_err_user {V E : Type} {fs : List (ServiceFactory V E)} :
    ∀ (fuel : Nat) (st : MState V) (k : ServiceKey) (st' : MState V) (e : E),
      ServiceModule.get fs fuel st k = RResult.err (RError.user e) st' →
      ∃ f, f ∈ fs ∧ ∃ args, f.userInit args = Except.error e := by
  intro fuel
  induction fuel with
  | zero => intro st k st' e h; simp [ServiceModule.get] at h
  | succ fuel ih =>
    intro st k st' e h
    simp only [ServiceModule.get] at h
    split at h
    · cases h
    · rename_i i f hf
      split at h
      · rename_i e0 st0 hr
        cases h
        exact resolveDeps_err_user (fun st k st' e hg => ih st k st' e hg)
          f.dependsOn st st' e hr
      · rename_i vs st0 hr
        exact ⟨f, (findSuitable_eq_some hf).1, vs, callFactory_err_user h⟩

/-! ## Termination under an acyclic dependency graph

Acyclicity of the dependency graph (an edge from each factory's provided key
to each of its dependency keys) is witnessed by a rank function that strictly
decreases along edges; for finite graphs this is equivalent to the absence of
cycles (a topological ordering). -/

theorem callFactory_not_fuelOut {V E : Type} {f : ServiceFactory V E} {i : Nat}
    {st : MState V} {deps : List V} :
    (callFactory f i st deps).isFuelOut = false := by
  unfold callFactory
  split
  · split <;> simp [RResult.isFuelOut, RError.isFuelErr]
  · split
    · simp [RResult.isFuelOut]
    · split <;> simp [RResult.isFuelOut, RError.isFuelErr]

theorem resolveDeps_not_fuelOut {V E : Type}
    {res : MState V → ServiceKey → RResult V E} {cond : ServiceKey → Prop}
    (hres : ∀ st k, cond k → (res st k).isFuelOut = false) :
    ∀ (ks : List ServiceKey) (st : MState V), (∀ k ∈ ks, cond k) →
      (resolveDeps res st ks).isFuelOut = false := by
  intro ks
  induction ks with
  | nil => intro st h; simp [resolveDeps, DepsResult.isFuelOut]
  | cons k ks ih =>
    intro st h
    simp only [resolveDeps]
    split
    · rename_i e st' hg
      have hh := hres st k (h k (List.mem_cons_self _ _))
      rw [hg] at hh
      simpa [RResult.isFuelOut, DepsResult.isFuelOut] using hh
    · rename_i w st' hg
      split
      · rename_i e st'' hq
        have hh := ih st' (fun k hk => h k (List.mem_cons_of_mem _ hk))
        rw [hq] at hh
        simpa [DepsResult.isFuelOut] using hh
      · simp [DepsResult.isFuelOut]

/-- With a topological rank and fuel exceeding the requested key's rank, `get`
never exhausts its fuel: the recursion depth is bounded by the acyclic
dependency graph. -/
theorem get_ranked_not_fuelOut {V E : Type} {fs : List (ServiceFactory V E)}
    {rank : Nat → Nat} (hrank : DepsRanked fs rank) :
    ∀ (fuel : Nat) (k : ServiceKey) (st : MState V), rank k.symbol < fuel →
      (ServiceModule.get fs fuel st k).isFuelOut = false := by
  intro fuel
  induction fuel with
  | zero => intro k st h; exact absurd h (Nat.not_lt_zero _)
  | succ fuel ih =>
    intro k st h
    cases hm : findSuitable k fs with
    | none =>
      rw [get_notfound_eq hm]
      simp [RResult.isFuelOut, RError.isFuelErr]
    | some p =>
      obtain ⟨i, f⟩ := p
      rw [get_found_eq hm]
      obtain ⟨hmem, hsym, -⟩ := findSuitable_eq_some hm
      have hcond : ∀ d ∈ f.dependsOn, rank d.symbol < fuel := by
        intro d hd
        have h1 : rank d.symbol < rank f.provides.symbol := hrank f hmem d hd
        rw [hsym] at h1
        omega
      have hdeps := resolveDeps_not_fuelOut (fun st k hk => ih k st hk)
        f.dependsOn st hcond
      split
      · rename_i e st' hr
        rw [hr] at hdeps
        simpa [DepsResult.isFuelOut, RResult.isFuelOut] using hdeps
      · exact callFactory_not_fuelOut

/-! ## Last-wins deduplication -/

theorem filter_replace_eq {V E : Type} {f : ServiceFactory V E} {s : Nat}
    (hf : f.provides.symbol = s) :
    ∀ acc : List (ServiceFactory V E),
      (acc.map (fun g =>
          if g.provides.symbol = f.provides.symbol then f else g)).filter
        (fun g => decide (g.provides.symbol = s)) =
      List.replicate
        ((acc.filter (fun g => decide (g.provides.symbol = s))).length) f := by
  intro acc
  induction acc with
  | nil => simp
  | cons g0 rest ih =>
    simp only [hf] at ih ⊢
    simp only [List.map_cons, List.filter_cons]
    by_cases hg : g0.provides.symbol = s
    · simp [hg, hf, ih, List.replicate_succ]
    · simp [hg, ih]

theorem filter_replace_ne {V E : Type} {f : ServiceFactory V E} {s : Nat}
    (hf : f.provides.symbol ≠ s) :
    ∀ acc : List (ServiceFactory V E),
      (acc.map (fun g =>
          if g.provides.symbol = f.provides.symbol then f else g)).filter
        (fun g => decide (g.provides.symbol = s)) =
      acc.filter (fun g => decide (g.provides.symbol = s)) := by
  intro acc
  induction acc with
  | nil => simp
  | cons g0 rest ih =>
    simp only [List.map_cons, List.filter_cons]
    by_cases hrep : g0.provides.symbol = f.provides.symbol
    · have hg : g0.provides.symbol ≠ s := by rw [hrep]; exact hf
      simp [hrep, hg, hf, ih]
    · by_cases hg : g0.provides.symbol = s
      · have hsf : s ≠ f.provides.symbol := by rw [← hg]; exact hrep
        simp [hrep, hg, hsf, ih]
      · simp [hrep, hg, ih]

theorem mapSet_filter_pos {V E : Type} {f : ServiceFactory V E} {s : Nat}
    (hf : f.provides.symbol = s) (acc : List (ServiceFactory V E))
    (hlen : (acc.filter (fun g => decide (g.provides.symbol = s))).length ≤ 1) :
    (mapSet acc f).filter (fun g => decide (g.provides.symbol = s)) = [f] := by
  unfold mapSet
  by_cases hany : acc.any (fun g => decide (g.provides.symbol = f.provides.symbol))
  · rw [if_pos hany, filter_replace_eq hf]
    obtain ⟨g0, hg0mem, hg0⟩ := List.any_eq_true.mp hany
    have hmem : g0 ∈ acc.filter (fun g => decide (g.provides.symbol = s)) := by
      rw [List.mem_filter]
      refine ⟨hg0mem, ?_⟩
      rw [← hf]
      exact hg0
    have hpos : 0 < (acc.filter (fun g => decide (g.provides.symbol = s))).length :=
      List.length_pos.mpr (fun hnil => by rw [hnil] at hmem; cases hmem)
    have hone : (acc.filter (fun g => decide (g.provides.symbol = s))).length = 1 := by
      omega
    rw [hone]
    simp
  · rw [if_neg hany, List.filter_append]
    have hempty : acc.filter (fun g => decide (g.provides.symbol = s)) = [] := by
      rw [List.filter_eq_nil_iff]
      intro g hg hcon
      apply hany
      rw [List.any_eq_true]
      refine ⟨g, hg, ?_⟩
      rw [hf]
      exact hcon
    rw [hempty]
    simp [hf]

theorem mapSet_filter_neg {V E : Type} {f : ServiceFactory V E} {s : Nat}
    (hf : f.provides.symbol ≠ s) (acc : List (ServiceFactory V E)) :
    (mapSet acc f).filter (fun g => decide (g.provides.symbol = s)) =
      acc.filter (fun g => decide (g.provides.symbol = s)) := by
  unfold mapSet
  by_cases hany : acc.any (fun g => decide (g.provides.symbol = f.provides.symbol))
  · rw [if_pos hany, filter_replace_ne hf]
  · rw [if_neg hany, List.filter_append]
    simp [hf]

theorem dedupe_aux {V E : Type} (s : Nat) :
    ∀ (fs acc : List (ServiceFactory V E)),
      (acc.filter (fun g => decide (g.provides.symbol = s))).length ≤ 1 →
      (List.foldl mapSet acc fs).filter (fun g => decide (g.provides.symbol = s)) =
        match lastMatch (fun g => decide (g.provides.symbol = s)) fs with
        | none => acc.filter (fun g => decide (g.provides.symbol = s))
        | some f => [f] := by
  intro fs
  induction fs with
  | nil => intro acc hlen; simp [lastMatch]
  | cons f fs ih =>
    intro acc hlen
    rw [List.foldl_cons]
    by_cases hfs : f.provides.symbol = s
    · have hstep := mapSet_filter_pos hfs acc hlen
      have hlen' : ((mapSet acc f).filter
          (fun g => decide (g.provides.symbol = s))).length ≤ 1 := by
        rw [hstep]; simp
      rw [ih (mapSet acc f) hlen', hstep]
      simp only [lastMatch]
      cases lastMatch (fun g => decide (g.provides.symbol = s)) fs with
      | some b => simp
      | none => simp [hfs]
    · have hstep := mapSet_filter_neg hfs acc
      have hlen' : ((mapSet acc f).filter
          (fun g => decide (g.provides.symbol = s))).length ≤ 1 := by
        rw [hstep]; exact hlen
      rw [ih (mapSet acc f) hlen', hstep]
      simp only [lastMatch]
      cases lastMatch (fun g => decide (g.provides.symbol = s)) fs with
      | some b => simp
      | none => simp [hfs]

/-- After deduplication, the factories providing a given symbol are exactly the
last factory of the input sequence providing it (or none). -/
theorem dedupe_filter {V E : Type} (s : Nat) (fs : List (ServiceFactory V E)) :
    (dedupeByKey fs).filter (fun g => decide (g.provides.symbol = s)) =
      match lastMatch (fun g => decide (g.provides.symbol = s)) fs with
      | none => []
      | some f => [f] := by
  unfold dedupeByKey
  have h := dedupe_aux s fs [] (by simp)
  simpa using h

theorem findSuitable_of_filter_single {V E : Type} {k : ServiceKey}
    {fL : ServiceFactory V E} :
    ∀ {fs : List (ServiceFactory V E)},
      fs.filter (fun g => decide (g.provides.symbol = k.symbol)) = [fL] →
      ∃ i, findSuitable k fs = some (i, fL) := by
  intro fs
  induction fs with
  | nil => intro h; simp at h
  | cons f0 rest ih =>
    intro h
    by_cases hs : isSuitable k f0
    · have hs' : decide (f0.provides.symbol = k.symbol) = true := by
        simpa [isSuitable] using hs
      rw [List.filter_cons, if_pos hs'] at h
      injection h with h1 h2
      subst h1
      exact ⟨0, by simp [findSuitable, hs]⟩
    · have hs' : decide (f0.provides.symbol = k.symbol) = false := by
        simpa [isSuitable] using hs
      rw [List.filter_cons, if_neg (by simp [hs'])] at h
      obtain ⟨i, hi⟩ := ih h
      refine ⟨i + 1, ?_⟩
      simp [findSuitable, hs, hi]

/-! ## Construction-time validation -/

theorem validateAll_ok_iff {V E : Type} (all : List (ServiceFactory V E)) :
    ∀ fs : List (ServiceFactory V E),
      validateAll all fs = .ok () ↔
      ∀ f ∈ fs, checkRecursiveDependencies f = .ok () ∧
        checkMissingDependencies f all = .ok () := by
  intro fs
  induction fs with
  | nil => simp [validateAll]
  | cons f rest ih =>
    simp only [validateAll]
    cases h1 : checkRecursiveDependencies f with
    | error e =>
      simp only [List.forall_mem_cons, h1]
      constructor
      · intro h; cases h
      · intro h; cases h.1.1
    | ok u =>
      cases u
      cases h2 : checkMissingDependencies f all with
      | error e =>
        simp only [List.forall_mem_cons, h2]
        constructor
        · intro h; cases h
        · intro h; cases h.1.2
      | ok u =>
        cases u
        simp only [List.forall_mem_cons, ih]
        constructor
        · intro h; exact ⟨⟨h1, h2⟩, h⟩
        · intro h; exact h.2

theorem validateAll_append {V E : Type} (all : List (ServiceFactory V E)) :
    ∀ (pre rest : List (ServiceFactory V E)),
      (∀ g ∈ pre, checkRecursiveDependencies g = .ok () ∧
        checkMissingDependencies g all = .ok ()) →
      validateAll all (pre ++ rest) = validateAll all rest := by
  intro pre
  induction pre with
  | nil => intro rest _; rfl
  | cons g pre ih =>
    intro rest hpre
    have hg := hpre g (List.mem_cons_self _ _)
    simp only [List.cons_append, validateAll, hg.1, hg.2]
    exact ih rest (fun g' hg' => hpre g' (List.mem_cons_of_mem _ hg'))

theorem validateAll_cons_rec_error {V E : Type} {all : List (ServiceFactory V E)}
    {f : ServiceFactory V E} {post : List (ServiceFactory V E)} {e : String}
    (h : checkRecursiveDependencies f = .error e) :
    validateAll all (f :: post) = .error e := by
  simp [validateAll, h]

theorem validateAll_cons_missing_error {V E : Type} {all : List (ServiceFactory V E)}
    {f : ServiceFactory V E} {post : List (ServiceFactory V E)} {e : String}
    (h1 : checkRecursiveDependencies f = .ok ())
    (h2 : checkMissingDependencies f all = .error e) :
    validateAll all (f :: post) = .error e := by
  simp [validateAll, h1, h2]

theorem mkModule_ok_iff {V E : Type} {fs : List (ServiceFactory V E)}
    {m : ServiceModule V E} :
    mkModule fs = .ok m ↔ validateAll fs fs = .ok () ∧ m = ⟨fs⟩ := by
  unfold mkModule
  cases h : validateAll fs fs with
  | error e =>
    constructor
    · intro hc; cases hc
    · intro hc; cases hc.1
  | ok u =>
    cases u
    constructor
    · intro hc
      cases hc
      exact ⟨rfl, rfl⟩
    · intro hc
      rw [hc.2]

theorem mkModule_error_of_validate {V E : Type} {fs : List (ServiceFactory V E)}
    {e : String} (h : validateAll fs fs = .error e) :
    mkModule fs = .error e := by
  unfold mkModule
  rw [h]

theorem checkRecursive_error_of_selfDependent {V E : Type}
    {f : ServiceFactory V E} (h : selfDependent f) :
    checkRecursiveDependencies f =
      .error ("Recursive dependency detected on: " ++ f.provides.name) := by
  unfold selfDependent at h
  unfold checkRecursiveDependencies
  rw [if_pos h]

theorem checkRecursive_ok_of_not_selfDependent {V E : Type}
    {f : ServiceFactory V E} (h : ¬ selfDependent f) :
    checkRecursiveDependencies f = .ok () := by
  unfold selfDependent at h
  unfold checkRecursiveDependencies
  rw [if_neg h]

theorem checkMissing_error_of_missing {V E : Type} {f : ServiceFactory V E}
    {fs : List (ServiceFactory V E)} (h : missingDependencies f fs ≠ []) :
    checkMissingDependencies f fs = .error (missingMessage f fs) := by
  unfold checkMissingDependencies
  rw [if_neg (by simpa [List.isEmpty_iff] using h)]

theorem checkMissing_ok_iff {V E : Type} {f : ServiceFactory V E}
    {fs : List (ServiceFactory V E)} :
    checkMissingDependencies f fs = .ok () ↔ missingDependencies f fs = [] := by
  unfold checkMissingDependencies
  by_cases h : (missingDependencies f fs).isEmpty
  · rw [if_pos h]
    simp only [List.isEmpty_iff] at h
    simp [h]
  · rw [if_neg h]
    simp only [List.isEmpty_iff] at h
    constructor
    · intro hc; cases hc
    · intro hc; exact absurd hc h

/-! ## Disposal -/

theorem disposeFrom_cons {V E : Type} (s : Option ServiceScope)
    (f : ServiceFactory V E) (fs : List (ServiceFactory V E)) (n : Nat)
    (st : MState V) :
    disposeFrom s (f :: fs) n st =
      if scopeMatches s f then
        ((disposeFrom s fs (n + 1) (disposeFactory f n st).1).1,
         (disposeFactory f n st).2 ++
           (disposeFrom s fs (n + 1) (disposeFactory f n st).1).2)
      else
        disposeFrom s fs (n + 1) st := rfl

theorem disposeFactory_initCalls {V E : Type} (f : ServiceFactory V E) (i : Nat)
    (st : MState V) :
    (disposeFactory f i st).1.initCalls = st.initCalls := by
  unfold disposeFactory
  split
  · rfl
  · split
    · rfl
    · rfl

theorem disposeFactory_caches_other {V E : Type} {f : ServiceFactory V E}
    {i : Nat} (st : MState V) {j : Nat} (hj : j ≠ i) :
    (disposeFactory f i st).1.caches j = st.caches j := by
  unfold disposeFactory
  split
  · rfl
  · split
    · rfl
    · simp [MState.setCache, hj]

theorem disposeFactory_log_mem {V E : Type} {f : ServiceFactory V E} {i : Nat}
    {st : MState V} {q : Nat} {v : V} (h : (q, v) ∈ (disposeFactory f i st).2) :
    q = i := by
  unfold disposeFactory at h
  split at h
  · cases h
  · split at h
    · cases h
    · simp at h
      exact h.1

theorem disposeFactory_oneShot {V E : Type} {f : ServiceFactory V E} {i : Nat}
    (st : MState V) (hk : f.kind = FactoryKind.oneShot) :
    disposeFactory f i st = (st, []) := by
  unfold disposeFactory
  rw [hk]

theorem disposeFactory_nocache {V E : Type} {f : ServiceFactory V E} {i : Nat}
    {st : MState V} (hk : f.kind = FactoryKind.singleton)
    (hc : st.caches i = none) :
    disposeFactory f i st = (st, []) := by
  unfold disposeFactory
  rw [hk, hc]

theorem disposeFactory_cached {V E : Type} {f : ServiceFactory V E} {i : Nat}
    {st : MState V} {v : V} (hk : f.kind = FactoryKind.singleton)
    (hc : st.caches i = some v) :
    disposeFactory f i st = (st.setCache i none, [(i, v)]) := by
  unfold disposeFactory
  rw [hk, hc]

theorem disposeFrom_log_ge {V E : Type} (s : Option ServiceScope) :
    ∀ (fs : List (ServiceFactory V E)) (n : Nat) (st : MState V) (q : Nat) (v : V),
      (q, v) ∈ (disposeFrom s fs n st).2 → n ≤ q := by
  intro fs
  induction fs with
  | nil => intro n st q v h; cases h
  | cons f fs ih =>
    intro n st q v h
    rw [disposeFrom_cons] at h
    by_cases hm : scopeMatches s f
    · rw [if_pos hm] at h
      simp only [List.mem_append] at h
      cases h with
      | inl h => rw [disposeFactory_log_mem h]
      | inr h => exact Nat.le_of_succ_le (ih (n + 1) _ q v h)
    · rw [if_neg hm] at h
      exact Nat.le_of_succ_le (ih (n + 1) st q v h)

theorem disposeFrom_caches_lt {V E : Type} (s : Option ServiceScope) :
    ∀ (fs : List (ServiceFactory V E)) (n : Nat) (st : MState V) (j : Nat),
      j < n → (disposeFrom s fs n st).1.caches j = st.caches j := by
  intro fs
  induction fs with
  | nil => intro n st j hj; rfl
  | cons f fs ih =>
    intro n st j hj
    rw [disposeFrom_cons]
    by_cases hm : scopeMatches s f
    · rw [if_pos hm]
      have h1 := ih (n + 1) (disposeFactory f n st).1 j (Nat.lt_succ_of_lt hj)
      rw [h1]
      exact disposeFactory_caches_other st (Nat.ne_of_lt hj)
    · rw [if_neg hm]
      exact ih (n + 1) st j (Nat.lt_succ_of_lt hj)

theorem disposeFrom_initCalls {V E : Type} (s : Option ServiceScope) :
    ∀ (fs : List (ServiceFactory V E)) (n : Nat) (st : MState V),
      (disposeFrom s fs n st).1.initCalls = st.initCalls := by
  intro fs
  induction fs with
  | nil => intro n st; rfl
  | cons f fs ih =>
    intro n st
    rw [disposeFrom_cons]
    by_cases hm : scopeMatches s f
    · rw [if_pos hm]
      rw [ih (n + 1) (disposeFactory f n st).1]
      exact disposeFactory_initCalls f n st
    · rw [if_neg hm]
      exact ih (n + 1) st

/-- A selected (scope-matching) singleton factory with a cached instance is
torn down: the cache at its index is cleared and the user teardown is invoked
on the cached instance. -/
theorem disposeFrom_at_selected {V E : Type} (s : Option ServiceScope) :
    ∀ (fs : List (ServiceFactory V E)) (p n i : Nat) (st : MState V)
      (f : ServiceFactory V E) (v : V),
      fs.get? p = some f → i = n + p → scopeMatches s f = true →
      f.kind = FactoryKind.singleton → st.caches i = some v →
      (disposeFrom s fs n st).1.caches i = none ∧
      (i, v) ∈ (disposeFrom s fs n st).2 := by
  intro fs
  induction fs with
  | nil => intro p n i st f v hp; cases hp
  | cons f0 rest ih =>
    intro p n i st f v hp hi hm hk hc
    cases p with
    | zero =>
      have hf : f0 = f := by simpa using hp
      subst hf
      have hin : i = n := by omega
      subst hin
      rw [disposeFrom_cons, if_pos hm, disposeFactory_cached hk hc]
      constructor
      · rw [disposeFrom_caches_lt s rest (i + 1) _ i (Nat.lt_succ_self i)]
        simp [MState.setCache]
      · simp
    | succ p =>
      have hp' : rest.get? p = some f := by simpa using hp
      by_cases hm0 : scopeMatches s f0
      · rw [disposeFrom_cons, if_pos hm0]
        have hne : i ≠ n := by omega
        have hc1 : (disposeFactory f0 n st).1.caches i = some v := by
          rw [disposeFactory_caches_other st hne]
          exact hc
        have hih := ih p (n + 1) i (disposeFactory f0 n st).1 f v hp'
          (by omega) hm hk hc1
        exact ⟨hih.1, List.mem_append_right _ hih.2⟩
      · rw [disposeFrom_cons, if_neg hm0]
        exact ih p (n + 1) i st f v hp' (by omega) hm hk hc

/-- A factory that is not scope-selected, has no dispose member (one-shot), or
holds no cached instance is left untouched: its cache cell is unchanged and no
teardown is invoked at its index. -/
theorem disposeFrom_at_skipped {V E : Type} (s : Option ServiceScope) :
    ∀ (fs : List (ServiceFactory V E)) (p n i : Nat) (st : MState V)
      (f : ServiceFactory V E),
      fs.get? p = some f → i = n + p →
      (scopeMatches s f = false ∨ f.kind = FactoryKind.oneShot ∨
        st.caches i = none) →
      (disposeFrom s fs n st).1.caches i = st.caches i ∧
      ∀ v, (i, v) ∉ (disposeFrom s fs n st).2 := by
  intro fs
  induction fs with
  | nil => intro p n i st f hp; cases hp
  | cons f0 rest ih =>
    intro p n i st f hp hi hns
    cases p with
    | zero =>
      have hf : f0 = f := by simpa using hp
      subst hf
      have hin : i = n := by omega
      subst hin
      by_cases hm : scopeMatches s f0
      · have hdf : disposeFactory f0 i st = (st, []) := by
          rcases hns with hns | hns | hns
          · rw [hns] at hm; cases hm
          · exact disposeFactory_oneShot st hns
          · cases hk : f0.kind with
            | oneShot => exact disposeFactory_oneShot st hk
            | singleton => exact disposeFactory_nocache hk hns
        rw [disposeFrom_cons, if_pos hm, hdf]
        constructor
        · simp only []
          exact disposeFrom_caches_lt s rest (i + 1) st i (Nat.lt_succ_self i)
        · intro v hv
          simp only [List.nil_append] at hv
          have := disposeFrom_log_ge s rest (i + 1) st i v hv
          omega
      · rw [disposeFrom_cons, if_neg hm]
        constructor
        · exact disposeFrom_caches_lt s rest (i + 1) st i (Nat.lt_succ_self i)
        · intro v hv
          have := disposeFrom_log_ge s rest (i + 1) st i v hv
          omega
    | succ p =>
      have hp' : rest.get? p = some f := by simpa using hp
      by_cases hm0 : scopeMatches s f0
      · rw [disposeFrom_cons, if_pos hm0]
        have hne : i ≠ n := by omega
        have hceq : (disposeFactory f0 n st).1.caches i = st.caches i :=
          disposeFactory_caches_other st hne
        have hns' : scopeMatches s f = false ∨ f.kind = FactoryKind.oneShot ∨
            (disposeFactory f0 n st).1.caches i = none := by
          rcases hns with hns | hns | hns
          · exact Or.inl hns
          · exact Or.inr (Or.inl hns)
          · exact Or.inr (Or.inr (by rw [hceq]; exact hns))
        have hih := ih p (n + 1) i (disposeFactory f0 n st).1 f hp'
          (by omega) hns'
        constructor
        · rw [hih.1, hceq]
        · intro v hv
          rw [List.mem_append] at hv
          cases hv with
          | inl hv => exact hne (disposeFactory_log_mem hv)
          | inr hv => exact hih.2 v hv
      · rw [disposeFrom_cons, if_neg hm0]
        exact ih p (n + 1) i st f hp' (by omega) hns

/-! ## Dependency resolution order -/

theorem resolveDeps_ok_resolvesEach {V E : Type}
    {res : MState V → ServiceKey → RResult V E} :
    ∀ {ks : List ServiceKey} {st st' : MState V} {vs : List V},
      resolveDeps res st ks = DepsResult.ok vs st' →
      ResolvesEach res st ks vs st' ∧ vs.length = ks.length := by
  intro ks
  induction ks with
  | nil =>
    intro st st' vs h
    simp only [resolveDeps] at h
    cases h
    exact ⟨ResolvesEach.nil st, rfl⟩
  | cons k ks ih =>
    intro st st' vs h
    simp only [resolveDeps] at h
    split at h
    · cases h
    · rename_i v st1 hg
      split at h
      · cases h
      · rename_i vs1 st2 hq
        cases h
        obtain ⟨hre, hlen⟩ := ih hq
        exact ⟨ResolvesEach.cons st k v st1 ks vs1 _ hg hre, by simp [hlen]⟩

/-! ## Claim theorems -/

/-- C1: for a singleton factory, the first call to its `initialize` (cache
empty) invokes the user initializer (count +1) and caches the awaited result;
every subsequent sequential call returns the cached value without re-invoking
the user initializer; consequently two sequential (non-overlapping) `get`s of
the singleton's key return the identical instance, the second one without
running the user initializer again. -/
theorem singleton_first_call_caches_then_idempotent {V E : Type}
    {fs : List (ServiceFactory V E)} {k : ServiceKey} {i : Nat}
    {f : ServiceFactory V E}
    (hf : findSuitable k fs = some (i, f))
    (hk : f.kind = FactoryKind.singleton) :
    (∀ (st : MState V) (deps : List V) (v : V),
      st.caches i = none → f.userInit deps = Except.ok v →
      callFactory f i st deps =
        RResult.ok v ((st.bump i).setCache i (some v)) ∧
      ((st.bump i).setCache i (some v)).caches i = some v ∧
      ((st.bump i).setCache i (some v)).initCalls i = st.initCalls i + 1) ∧
    (∀ (st : MState V) (deps : List V) (v : V),
      st.caches i = some v →
      callFactory f i st deps = RResult.ok v st) ∧
    (∀ (fuel fuel2 : Nat) (st st1 st2 : MState V) (v w : V),
      ServiceModule.get fs fuel st k = RResult.ok v st1 →
      ServiceModule.get fs fuel2 st1 k = RResult.ok w st2 →
      st1.caches i = some v ∧ w = v ∧ st2.initCalls i = st1.initCalls i) := by
  refine ⟨?_, ?_, ?_⟩
  · intro st deps v hc hu
    rw [callFactory_singleton_miss hk hc, hu]
    refine ⟨rfl, ?_, ?_⟩
    · simp [MState.setCache, MState.bump]
    · simp [MState.setCache, MState.bump]
  · intro st deps v hc
    exact callFactory_cached_hit hk hc
  · intro fuel fuel2 st st1 st2 v w h1 h2
    have hc1 := get_singleton_ok_caches hf hk h1
    obtain ⟨hw, hcalls⟩ := get_singleton_cached hf hk hc1 h2
    exact ⟨hc1, hw, hcalls⟩

theorem singleton_first_call_caches_then_idempotent_witness :
    ServiceModule.get fsW 3 MState.empty kApp = RResult.ok 130 stW1 ∧
    ServiceModule.get fsW 3 stW1 kApp = RResult.ok 130 stW2 ∧
    stW1.caches 2 = some 130 ∧ (130 : Nat) = 130 ∧
    stW2.initCalls 2 = stW1.initCalls 2 :=
  ⟨rfl, rfl,
    (singleton_first_call_caches_then_idempotent
      (rfl : findSuitable kApp fsW = some (2, wApp))
      (rfl : wApp.kind = FactoryKind.singleton)).2.2
      3 3 MState.empty stW1 stW2 130 130 rfl rfl⟩

/-- C2: composing entries via `ServiceModule.from` in which several factories
provide the same key leaves exactly one active factory for that key — the last
one in the flattened sequence — and `get` of that key resolves through it:
the lookup finds it, its dependencies are the ones resolved, and its
`initialize` is the one invoked. -/
theorem from_last_wins {V E : Type} {es : List (ModuleEntry V E)}
    {k : ServiceKey} {fL : ServiceFactory V E} {m : ServiceModule V E}
    (hlast : lastMatch (fun g => decide (g.provides.symbol = k.symbol))
      (flattenEntries es) = some fL)
    (hok : ServiceModule.fromEntries es = .ok m) :
    m.factories.filter (fun g => decide (g.provides.symbol = k.symbol)) = [fL] ∧
    ∃ i, findSuitable k m.factories = some (i, fL) ∧
      ∀ (fuel : Nat) (st : MState V),
        ServiceModule.get m.factories (fuel + 1) st k =
          match resolveDeps (ServiceModule.get m.factories fuel) st
              fL.dependsOn with
          | .err e st' => .err e st'
          | .ok vs st' => callFactory fL i st' vs := by
  obtain ⟨-, hm⟩ := mkModule_ok_iff.mp hok
  subst hm
  have hfil := dedupe_filter k.symbol (flattenEntries es)
  rw [hlast] at hfil
  refine ⟨hfil, ?_⟩
  obtain ⟨i, hi⟩ := findSuitable_of_filter_single hfil
  exact ⟨i, hi, fun fuel st => get_found_eq hi fuel st⟩

theorem from_last_wins_witness :
    (ServiceModule.mk [w2B] : ServiceModule Nat String).factories.filter
      (fun g => decide (g.provides.symbol = kCfg.symbol)) = [w2B] ∧
    ∃ i, findSuitable kCfg
        (ServiceModule.mk [w2B] : ServiceModule Nat String).factories =
        some (i, w2B) ∧
      ∀ (fuel : Nat) (st : MState Nat),
        ServiceModule.get [w2B] (fuel + 1) st kCfg =
          match resolveDeps (ServiceModule.get [w2B] fuel) st w2B.dependsOn with
          | .err e st' => .err e st'
          | .ok vs st' => callFactory w2B i st' vs :=
  from_last_wins
    (rfl : lastMatch (fun g => decide (g.provides.symbol = kCfg.symbol))
      (flattenEntries esW2) = some w2B)
    (rfl : ServiceModule.fromEntries esW2 = .ok (ServiceModule.mk [w2B]))

/-- C3 counterexample: in `fsC3 = [alpha, beta]`, the factory `beta` has a
missing dependency, yet module construction fails with `alpha`'s missing-
dependency error, which is not `beta`'s error: the claim's "for every factory
with missing dependencies, construction fails with an error naming that
factory" is false when more than one factory has missing dependencies. -/
theorem missing_dependency_naming_counterexample :
    missingDependencies c3B fsC3 ≠ [] ∧
    mkModule fsC3 = Except.error (missingMessage c3A fsC3) ∧
    mkModule fsC3 ≠ Except.error (missingMessage c3B fsC3) := by
  refine ⟨by decide, rfl, ?_⟩
  intro h
  rw [show mkModule fsC3 = Except.error (missingMessage c3A fsC3) from rfl] at h
  injection h with h'
  exact absurd h' (by decide)

/-- C3 (amended): whenever some factory of the (deduplicated) list has one or
more dependencies provided by no factory, construction fails; the error raised
is the one of the first factory in list order violating a validation invariant,
and when that factory's violation is missing dependencies (it is not
self-dependent), the message names its provided service and enumerates every
one of its missing dependency names on separate ` -> name` lines, not just the
first missing one. -/
theorem missing_dependency_first_violator {V E : Type}
    (fs : List (ServiceFactory V E)) :
    (∀ f ∈ fs, missingDependencies f fs ≠ [] →
      ∃ e, mkModule fs = Except.error e) ∧
    (∀ (pre post : List (ServiceFactory V E)) (f : ServiceFactory V E),
      fs = pre ++ f :: post →
      (∀ g ∈ pre, checkRecursiveDependencies g = .ok () ∧
        checkMissingDependencies g fs = .ok ()) →
      ¬ selfDependent f →
      missingDependencies f fs ≠ [] →
      mkModule fs = .error (missingMessage f fs) ∧
      missingMessage f fs = f.provides.name ++
        " will fail because it depends on:\n " ++
        String.intercalate "\n"
          ((missingDependencies f fs).map (fun d => " -> " ++ d.name)) ∧
      ∀ d ∈ f.dependsOn, isRegistered d fs = false →
        (" -> " ++ d.name) ∈
          (missingDependencies f fs).map (fun d => " -> " ++ d.name)) := by
  constructor
  · intro f hf hmiss
    cases hv : validateAll fs fs with
    | error e => exact ⟨e, mkModule_error_of_validate hv⟩
    | ok u =>
      cases u
      have := ((validateAll_ok_iff fs fs).mp hv f hf).2
      rw [checkMissing_ok_iff] at this
      exact absurd this hmiss
  · intro pre post f hfs hpre hns hmiss
    have h1 : checkRecursiveDependencies f = .ok () :=
      checkRecursive_ok_of_not_selfDependent hns
    have h2 : checkMissingDependencies f fs = .error (missingMessage f fs) :=
      checkMissing_error_of_missing hmiss
    have hv : validateAll fs fs = .error (missingMessage f fs) := by
      nth_rewrite 2 [hfs]
      rw [validateAll_append fs pre (f :: post) hpre]
      exact validateAll_cons_missing_error h1 h2
    refine ⟨mkModule_error_of_validate hv, rfl, ?_⟩
    intro d hd hreg
    refine List.mem_map_of_mem _ ?_
    unfold missingDependencies
    rw [List.mem_filter]
    exact ⟨hd, by rw [hreg]; rfl⟩

theorem missing_dependency_first_violator_witness :
    mkModule fsC3 = Except.error (missingMessage c3A fsC3) ∧
    missingMessage c3A fsC3 = "alpha will fail because it depends on:\n  -> db" ∧
    (" -> db") ∈ (missingDependencies c3A fsC3).map (fun d => " -> " ++ d.name) :=
  ⟨((missing_dependency_first_violator fsC3).2 [] [c3B] c3A rfl
      (by intro g hg; cases hg) (by decide) (by decide)).1,
   rfl,
   ((missing_dependency_first_violator fsC3).2 [] [c3B] c3A rfl
      (by intro g hg; cases hg) (by decide) (by decide)).2.2
     ⟨"db", 28⟩ (by decide) (by decide)⟩

/-- C4 counterexample: in `fsC4 = [gamma, delta]`, the factory `delta` is
directly self-dependent, yet construction fails with the error naming `gamma`
(the first self-dependent factory), not `delta`: the claim's "fails with an
error naming that factory's service" is false when an earlier factory also
violates an invariant. -/
theorem self_dependency_naming_counterexample :
    selfDependent c4B ∧
    mkModule fsC4 = Except.error ("Recursive dependency detected on: gamma") ∧
    mkModule fsC4 ≠
      Except.error ("Recursive dependency detected on: " ++ c4B.provides.name) := by
  refine ⟨by decide, rfl, ?_⟩
  intro h
  rw [show mkModule fsC4 =
    Except.error ("Recursive dependency detected on: gamma") from rfl] at h
  injection h with h'
  exact absurd h' (by decide)

/-- C4 (amended): a module containing a directly self-dependent factory is
never created — construction always fails; the raised error names the first
invariant-violating factory in list order, so when the self-dependent factory
is the first violator the error is exactly
`Recursive dependency detected on: <its service name>`. -/
theorem self_dependency_never_constructed {V E : Type}
    (fs : List (ServiceFactory V E)) :
    (∀ f ∈ fs, selfDependent f →
      ∀ m : ServiceModule V E, mkModule fs ≠ Except.ok m) ∧
    (∀ (pre post : List (ServiceFactory V E)) (f : ServiceFactory V E),
      fs = pre ++ f :: post →
      (∀ g ∈ pre, checkRecursiveDependencies g = .ok () ∧
        checkMissingDependencies g fs = .ok ()) →
      selfDependent f →
      mkModule fs =
        .error ("Recursive dependency detected on: " ++ f.provides.name)) := by
  constructor
  · intro f hf hself m hok
    obtain ⟨hv, -⟩ := mkModule_ok_iff.mp hok
    have := ((validateAll_ok_iff fs fs).mp hv f hf).1
    rw [checkRecursive_error_of_selfDependent hself] at this
    cases this
  · intro pre post f hfs hpre hself
    have h1 := checkRecursive_error_of_selfDependent hself
    have hv : validateAll fs fs =
        .error ("Recursive dependency detected on: " ++ f.provides.name) := by
      nth_rewrite 2 [hfs]
      rw [validateAll_append fs pre (f :: post) hpre]
      exact validateAll_cons_rec_error h1
    exact mkModule_error_of_validate hv

theorem self_dependency_never_constructed_witness :
    mkModule fsC4 =
      Except.error ("Recursive dependency detected on: " ++ c4A.provides.name) ∧
    (∀ m : ServiceModule Nat String, mkModule fsC4 ≠ Except.ok m) :=
  ⟨(self_dependency_never_constructed fsC4).2 [] [c4B] c4A rfl
      (by intro g hg; cases hg) (by decide),
   fun m => (self_dependency_never_constructed fsC4).1 c4A
      (List.mem_cons_self _ _) (by decide) m⟩

/-- C5: a successful `get` locates the (first) suitable factory, resolves each
entry of its `dependsOn` in the declared order, waits for all of them to
complete (`ResolvesEach` requires every entry to produce a value), and invokes
the factory's `initialize` with the resolved values positionally — the `j`-th
argument is the value of the `j`-th declared dependency — returning the
produced value. -/
theorem get_resolves_deps_in_declared_order {V E : Type}
    {fs : List (ServiceFactory V E)} {fuel : Nat} {st stF : MState V}
    {k : ServiceKey} {v : V}
    (h : ServiceModule.get fs (fuel + 1) st k = RResult.ok v stF) :
    ∃ i f vs stM, findSuitable k fs = some (i, f) ∧
      ResolvesEach (ServiceModule.get fs fuel) st f.dependsOn vs stM ∧
      vs.length = f.dependsOn.length ∧
      callFactory f i stM vs = RResult.ok v stF := by
  cases hm : findSuitable k fs with
  | none =>
    rw [get_notfound_eq hm] at h
    cases h
  | some p =>
    obtain ⟨i, f⟩ := p
    rw [get_found_eq hm] at h
    split at h
    · cases h
    · rename_i vs stM hr
      obtain ⟨hre, hlen⟩ := resolveDeps_ok_resolvesEach hr
      exact ⟨i, f, vs, stM, rfl, hre, hlen, h⟩

theorem get_resolves_deps_in_declared_order_witness :
    ∃ i f vs stM, findSuitable kApp fsW = some (i, f) ∧
      ResolvesEach (ServiceModule.get fsW 2) MState.empty f.dependsOn vs stM ∧
      vs.length = f.dependsOn.length ∧
      callFactory f i stM vs = RResult.ok 130 stW1 :=
  get_resolves_deps_in_declared_order
    (rfl : ServiceModule.get fsW (2 + 1) MState.empty kApp = RResult.ok 130 stW1)

/-- C6: `dispose(S)` invokes user teardown exactly on the factories whose scope
matches `S` and which currently hold a cached instance, clearing those caches
(so the next `initialize` call runs the user initializer afresh and caches a
new instance); factories whose scope does not match keep their cache untouched
and get no teardown; one-shot factories (no dispose member) are skipped; with
no scope argument every factory is selected (`scopeMatches none` is `true`);
and disposal never runs a user initializer (`initCalls` is unchanged). -/
theorem dispose_scope_frame {V E : Type} (fs : List (ServiceFactory V E))
    (s : Option ServiceScope) (st : MState V) (i : Nat) (f : ServiceFactory V E)
    (hf : fs.get? i = some f) :
    (∀ v : V, f.kind = FactoryKind.singleton → scopeMatches s f = true →
      st.caches i = some v →
      (ServiceModule.dispose fs s st).1.caches i = none ∧
      (i, v) ∈ (ServiceModule.dispose fs s st).2 ∧
      (∀ (deps : List V) (w : V), f.userInit deps = Except.ok w →
        callFactory f i (ServiceModule.dispose fs s st).1 deps =
          RResult.ok w
            ((((ServiceModule.dispose fs s st).1).bump i).setCache i (some w)))) ∧
    (scopeMatches s f = false →
      (ServiceModule.dispose fs s st).1.caches i = st.caches i ∧
      ∀ v : V, (i, v) ∉ (ServiceModule.dispose fs s st).2) ∧
    (f.kind = FactoryKind.oneShot →
      (ServiceModule.dispose fs s st).1.caches i = st.caches i ∧
      ∀ v : V, (i, v) ∉ (ServiceModule.dispose fs s st).2) ∧
    (st.caches i = none →
      (ServiceModule.dispose fs s st).1.caches i = st.caches i ∧
      ∀ v : V, (i, v) ∉ (ServiceModule.dispose fs s st).2) ∧
    (s = none → scopeMatches s f = true) ∧
    (ServiceModule.dispose fs s st).1.initCalls = st.initCalls := by
  unfold ServiceModule.dispose
  refine ⟨?_, ?_, ?_, ?_, ?_, ?_⟩
  · intro v hk hm hc
    have hsel := disposeFrom_at_selected s fs i 0 i st f v hf (by omega) hm hk hc
    refine ⟨hsel.1, hsel.2, ?_⟩
    intro deps w hw
    rw [callFactory_singleton_miss hk hsel.1, hw]
  · intro hm
    exact disposeFrom_at_skipped s fs i 0 i st f hf (by omega) (Or.inl hm)
  · intro hk
    exact disposeFrom_at_skipped s fs i 0 i st f hf (by omega) (Or.inr (Or.inl hk))
  · intro hc
    exact disposeFrom_at_skipped s fs i 0 i st f hf (by omega) (Or.inr (Or.inr hc))
  · intro hs
    rw [hs]
    rfl
  · exact disposeFrom_initCalls s fs 0 st

theorem dispose_scope_frame_witness :
    ((ServiceModule.dispose fsW6 (some scS1) stW6).1.caches 0 = none ∧
      (0, 1) ∈ (ServiceModule.dispose fsW6 (some scS1) stW6).2 ∧
      callFactory u1 0 (ServiceModule.dispose fsW6 (some scS1) stW6).1 [] =
        RResult.ok 1
          ((((ServiceModule.dispose fsW6 (some scS1) stW6).1).bump 0).setCache 0
            (some 1))) ∧
    ((ServiceModule.dispose fsW6 (some scS1) stW6).1.caches 1 = stW6.caches 1 ∧
      ∀ v : Nat, (1, v) ∉ (ServiceModule.dispose fsW6 (some scS1) stW6).2) ∧
    ((ServiceModule.dispose fsW6 (some scS1) stW6).1.caches 2 = stW6.caches 2 ∧
      ∀ v : Nat, (2, v) ∉ (ServiceModule.dispose fsW6 (some scS1) stW6).2) ∧
    (ServiceModule.dispose fsW6 (some scS1) stW6).1.initCalls = stW6.initCalls := by
  refine ⟨?_, ?_, ?_, ?_⟩
  · have h := (dispose_scope_frame fsW6 (some scS1) stW6 0 u1 rfl).1 1 rfl rfl rfl
    exact ⟨h.1, h.2.1, h.2.2 [] 1 rfl⟩
  · exact (dispose_scope_frame fsW6 (some scS1) stW6 1 u2 rfl).2.1 rfl
  · exact (dispose_scope_frame fsW6 (some scS1) stW6 2 u3 rfl).2.2.1 rfl
  · exact (dispose_scope_frame fsW6 (some scS1) stW6 0 u1 rfl).2.2.2.2.2

/-- C7: when no factory of the module provides the requested key (by symbol),
`get` fails with the error `Could not find a suitable factory for <key name>`,
naming the requested key and leaving the state untouched; when a matching
factory exists in a module built by `ServiceModule.from`, the lookup used by
`get` returns the unique factory whose `provides` symbol matches the key's. -/
theorem get_unresolvable_key {V E : Type} :
    (∀ (fs : List (ServiceFactory V E)) (k : ServiceKey) (st : MState V)
      (fuel : Nat), isRegistered k fs = false →
      ServiceModule.get fs (fuel + 1) st k =
        RResult.err
          (RError.thrown ("Could not find a suitable factory for " ++ k.name))
          st) ∧
    (∀ (es : List (ModuleEntry V E)) (m : ServiceModule V E) (k : ServiceKey),
      ServiceModule.fromEntries es = .ok m → isRegistered k m.factories = true →
      ∃ i f, findSuitable k m.factories = some (i, f) ∧
        f.provides.symbol = k.symbol ∧
        ∀ g ∈ m.factories, g.provides.symbol = k.symbol → g = f) := by
  constructor
  · intro fs k st fuel hreg
    exact get_notfound_eq (findSuitable_eq_none.mpr hreg) fuel st
  · intro es m k hok hreg
    obtain ⟨-, hm⟩ := mkModule_ok_iff.mp hok
    subst hm
    have hfil := dedupe_filter k.symbol (flattenEntries es)
    cases hl : lastMatch (fun g => decide (g.provides.symbol = k.symbol))
        (flattenEntries es) with
    | none =>
      rw [hl] at hfil
      simp only [isRegistered, List.any_eq_true] at hreg
      obtain ⟨g, hg, hgs⟩ := hreg
      have : g ∈ (dedupeByKey (flattenEntries es)).filter
          (fun g => decide (g.provides.symbol = k.symbol)) :=
        List.mem_filter.mpr ⟨hg, hgs⟩
      rw [hfil] at this
      cases this
    | some fL =>
      rw [hl] at hfil
      obtain ⟨i, hi⟩ := findSuitable_of_filter_single hfil
      have hLs : fL.provides.symbol = k.symbol := by
        have : fL ∈ (dedupeByKey (flattenEntries es)).filter
            (fun g => decide (g.provides.symbol = k.symbol)) := by
          rw [hfil]; exact List.mem_cons_self _ _
        have := (List.mem_filter.mp this).2
        simpa using this
      refine ⟨i, fL, hi, hLs, ?_⟩
      intro g hg hgs
      have : g ∈ (dedupeByKey (flattenEntries es)).filter
          (fun g => decide (g.provides.symbol = k.symbol)) :=
        List.mem_filter.mpr ⟨hg, by simpa using hgs⟩
      rw [hfil] at this
      simpa using this

theorem get_unresolvable_key_witness :
    ServiceModule.get fsW (0 + 1) MState.empty kNone =
      RResult.err
        (RError.thrown ("Could not find a suitable factory for " ++ kNone.name))
        MState.empty ∧
    ∃ i f, findSuitable kCfg
        (ServiceModule.mk [w2B] : ServiceModule Nat String).factories =
        some (i, f) ∧
      f.provides.symbol = kCfg.symbol ∧
      ∀ g ∈ (ServiceModule.mk [w2B] : ServiceModule Nat String).factories,
        g.provides.symbol = kCfg.symbol → g = f :=
  ⟨(get_unresolvable_key).1 fsW kNone MState.empty 0 rfl,
   (get_unresolvable_key).2 esW2 (ServiceModule.mk [w2B]) kCfg rfl rfl⟩

/-- C8: a user-initializer failure during `get` propagates to the caller
unmodified — the surfaced error is exactly an error value produced by some
factory's user initializer, not wrapped or replaced — and the in-flight `get`
aborts with it; singleton caches filled by sibling resolutions that completed
before the failure remain intact in the resulting state: a subsequent `get`
for such a cached sibling key returns the already-cached instance without
re-invoking that factory's user initializer. -/
theorem init_error_propagates_unmodified {V E : Type}
    {fs : List (ServiceFactory V E)} {fuel : Nat} {st st' : MState V}
    {k : ServiceKey} {e : E}
    (h : ServiceModule.get fs fuel st k = RResult.err (RError.user e) st') :
    (∃ f, f ∈ fs ∧ ∃ args, f.userInit args = Except.error e) ∧
    (∀ (k' : ServiceKey) (i : Nat) (f' : ServiceFactory V E) (v : V),
      findSuitable k' fs = some (i, f') → f'.kind = FactoryKind.singleton →
      st'.caches i = some v →
      ∀ (fuel2 : Nat) (w : V) (st2 : MState V),
        ServiceModule.get fs fuel2 st' k' = RResult.ok w st2 →
        w = v ∧ st2.initCalls i = st'.initCalls i) := by
  constructor
  · exact get_err_user fuel st k st' e h
  · intro k' i f' v hf' hk' hc fuel2 w st2 h2
    exact get_singleton_cached hf' hk' hc h2

theorem init_error_propagates_unmodified_witness :
    ServiceModule.get fsW8 3 MState.empty kTop =
      RResult.err (RError.user "boom") stW8 ∧
    (∃ f, f ∈ fsW8 ∧ ∃ args, f.userInit args = Except.error "boom") ∧
    stW8.caches 0 = some 7 ∧
    ServiceModule.get fsW8 1 stW8 kCfg8 = RResult.ok 7 stW8b ∧
    (7 : Nat) = 7 ∧ stW8b.initCalls 0 = stW8.initCalls 0 := by
  refine ⟨rfl, ?_, rfl, rfl, ?_⟩
  · exact (init_error_propagates_unmodified
      (rfl : ServiceModule.get fsW8 3 MState.empty kTop =
        RResult.err (RError.user "boom") stW8)).1
  · exact (init_error_propagates_unmodified
      (rfl : ServiceModule.get fsW8 3 MState.empty kTop =
        RResult.err (RError.user "boom") stW8)).2
      kCfg8 0 b1 7 rfl rfl rfl 1 7 stW8b rfl

/-- C9: for a module whose dependency graph (edges from each factory's provided
key to each of its `dependsOn` keys) is acyclic — witnessed by a topological
rank that strictly decreases along edges — `get` of any registered key
terminates: with any fuel above the key's rank the recursion never exhausts
its fuel, i.e. the resolution depth is bounded by the acyclic graph. -/
theorem get_terminates_on_acyclic_graph {V E : Type}
    {fs : List (ServiceFactory V E)} {rank : Nat → Nat}
    (hrank : DepsRanked fs rank) (k : ServiceKey)
    (_hreg : isRegistered k fs = true) :
    ∀ (fuel : Nat) (st : MState V), rank k.symbol < fuel →
      (ServiceModule.get fs fuel st k).isFuelOut = false :=
  fun fuel st h => get_ranked_not_fuelOut hrank fuel k st h

theorem get_terminates_on_acyclic_graph_witness :
    DepsRanked fsW rankW ∧ isRegistered kApp fsW = true ∧
    rankW kApp.symbol < 2 ∧
    (ServiceModule.get fsW 2 MState.empty kApp).isFuelOut = false := by
  have hrank : DepsRanked fsW rankW := by unfold DepsRanked; decide
  refine ⟨hrank, rfl, by decide, ?_⟩
  exact get_terminates_on_acyclic_graph hrank kApp
    (rfl : isRegistered kApp fsW = true) 2 MState.empty (by decide)

/-- C10: `ServiceModule.from` deduplicates by provided key before the module
constructor runs, so validation sees only the surviving factories: if every
survivor passes both the self-dependency and the missing-dependency check,
construction succeeds (even when an overridden, discarded entry is
self-dependent or depends on unprovided keys); conversely a successfully
constructed module consists exactly of the deduplicated survivors and every
one of them passes both checks. -/
theorem from_validates_only_survivors {V E : Type}
    (es : List (ModuleEntry V E)) :
    ((∀ f ∈ dedupeByKey (flattenEntries es),
        checkRecursiveDependencies f = .ok () ∧
        checkMissingDependencies f (dedupeByKey (flattenEntries es)) = .ok ()) →
      ServiceModule.fromEntries es = .ok ⟨dedupeByKey (flattenEntries es)⟩) ∧
    (∀ m : ServiceModule V E, ServiceModule.fromEntries es = .ok m →
      m.factories = dedupeByKey (flattenEntries es) ∧
      ∀ f ∈ m.factories, checkRecursiveDependencies f = .ok () ∧
        checkMissingDependencies f m.factories = .ok ()) := by
  constructor
  · intro h
    unfold ServiceModule.fromEntries
    exact mkModule_ok_iff.mpr
      ⟨(validateAll_ok_iff (dedupeByKey (flattenEntries es))
          (dedupeByKey (flattenEntries es))).mpr h, rfl⟩
  · intro m hok
    obtain ⟨hv, hm⟩ := mkModule_ok_iff.mp hok
    subst hm
    exact ⟨rfl, (validateAll_ok_iff _ _).mp hv⟩

theorem from_validates_only_survivors_witness :
    selfDependent w10Bad ∧
    dedupeByKey (flattenEntries esW10) = [w10Good] ∧
    ServiceModule.fromEntries esW10 = .ok ⟨[w10Good]⟩ := by
  refine ⟨by decide, rfl, ?_⟩
  have hchecks : ∀ f ∈ dedupeByKey (flattenEntries esW10),
      checkRecursiveDependencies f = Except.ok () ∧
      checkMissingDependencies f (dedupeByKey (flattenEntries esW10)) =
        Except.ok () := by
    intro f hf
    rw [show dedupeByKey (flattenEntries esW10) = [w10Good] from rfl] at hf
    rw [List.mem_singleton] at hf
    subst hf
    exact ⟨rfl, rfl⟩
  exact (from_validates_only_survivors esW10).1 hchecks
